import Mathlib

/-!
Shallow embedding of the blockchain ledger implemented in `src/blockchain.js`
(classes `Transactions`, `Block`, `Blockchain`), together with theorems
settling the specification claims about it.

Modelling conventions:
* The external SHA256 digest (`crypto-js/sha256`, hex `toString`) is a
  parameter `H : HashFn`.  The external elliptic-curve primitives are a
  parameter `verify : VerifyFn` (`keyFromPublic(...).verify`) and a
  `SigningKey` record bundling `getPublic('hex')` and
  `sign(...).toDER('hex')`.
* JavaScript `null`/absent string fields are `Option String` (`none` = null).
* JavaScript numbers used by the program are naturals (amounts, timestamps,
  nonces, the reward); balances are integers.
* Methods that can `throw` return `Except String _`; the unbounded mining
  loop takes explicit fuel and returns `Option _` (`none` = fuel exhausted;
  with enough fuel this coincides with the JavaScript loop whenever that
  loop terminates).
* Field accesses on fields that are never assigned (`this.index`, and
  `this.nonce` at the point the constructor computes the initial hash)
  stringify as "undefined", exactly as JavaScript string coercion does.
-/

abbrev HashFn := String → String

/-- `verify pubKeyHex digest signatureHex` — the elliptic library's
signature check used by `Transactions.isValid`. -/
abbrev VerifyFn := String → String → String → Bool

/-- A private-key handle as used by `signTransaction`: `pub` is
`getPublic('hex')`, `sign` is `sign(hash,'base64').toDER('hex')`. -/
structure SigningKey where
  pub : String
  sign : String → String

structure Transactions where
  fromAddress : Option String
  toAddress : Option String
  amount : Nat
  signature : Option String := none
deriving DecidableEq

/-- JavaScript string coercion of a nullable string (`null + s` prints
"null"). -/
def jsCoerce : Option String → String
  | none => "null"
  | some s => s

/-- `Transactions.calculateHash`:
`SHA256(this.fromAddress + this.toAddress + this.amount).toString()`. -/
def Transactions.calculateHash (H : HashFn) (t : Transactions) : String :=
  H (jsCoerce t.fromAddress ++ jsCoerce t.toAddress ++ toString t.amount)

/-- `Transactions.signTransaction(signingKey)`: throws when
`signingKey.getPublic('hex') !== this.fromAddress` (in particular whenever
`fromAddress` is null, since a string is never strictly equal to null);
otherwise stores the DER signature over the content hash. -/
def Transactions.signTransaction (H : HashFn) (key : SigningKey)
    (t : Transactions) : Except String Transactions :=
  if some key.pub ≠ t.fromAddress then
    .error "You cannot sign transactions for other wallets!"
  else
    .ok { t with signature := some (key.sign (t.calculateHash H)) }

/-- `Transactions.isValid()`: reward transactions (null sender) are valid
unconditionally; a missing or empty signature throws; otherwise the
signature is checked against the content hash under the sender address. -/
def Transactions.isValid (H : HashFn) (verify : VerifyFn)
    (t : Transactions) : Except String Bool :=
  match t.fromAddress with
  | none => .ok true
  | some fromAddr =>
    match t.signature with
    | none => .error "No signature in this transaction"
    | some sig =>
      if sig = "" then .error "No signature in this transaction"
      else .ok (verify fromAddr (t.calculateHash H) sig)

/-- The `transactions` field of a `Block`.  It is an array of transactions
for every block built by `minePendingTransaction`, but the genesis block is
constructed as `new Block(0, "02/10/2018", "GenesisBlock", "0")`, which
stores the *string* "02/10/2018" in this field. -/
inductive TxsField where
  | arr : List Transactions → TxsField
  | str : String → TxsField
deriving DecidableEq

/-- JSON string quoting.  The addresses and signatures handled by the
program contain no characters that JSON escapes, so escaping is omitted. -/
def jsonQuote (s : String) : String := "\"" ++ s ++ "\""

def jsonOfAddr : Option String → String
  | none => "null"
  | some s => jsonQuote s

/-- `JSON.stringify` of one transaction object.  Property order is
insertion order: `fromAddress`, `toAddress`, `amount`, then `signature`
when `signTransaction` has set it (undefined properties are omitted). -/
def jsonOfTx (t : Transactions) : String :=
  "\x7b\"fromAddress\":" ++ jsonOfAddr t.fromAddress ++
  ",\"toAddress\":" ++ jsonOfAddr t.toAddress ++
  ",\"amount\":" ++ toString t.amount ++
  (match t.signature with
   | none => ""
   | some s => ",\"signature\":" ++ jsonQuote s) ++ "\x7d"

/-- Array elements joined by ",". -/
def joinJson : List Transactions → String
  | [] => ""
  | [t] => jsonOfTx t
  | t :: u :: ts => jsonOfTx t ++ "," ++ joinJson (u :: ts)

/-- `JSON.stringify(this.transactions)`. -/
def jsonStringify : TxsField → String
  | .arr l => "[" ++ joinJson l ++ "]"
  | .str s => jsonQuote s

structure Block where
  timestamp : Nat
  transactions : TxsField
  previousHash : String
  hash : String
  nonce : Nat
deriving DecidableEq

/-- The string hashed by `Block.calculateHash`:
`this.index + this.previousHash + this.timestamp +
JSON.stringify(this.transactions) + this.nonce`.  `this.index` is never
assigned anywhere in the program, so it always stringifies as
"undefined"; `nonceStr` is the stringification of `this.nonce` at the
moment of the call. -/
def blockHashInput (previousHash : String) (timestamp : Nat)
    (transactions : TxsField) (nonceStr : String) : String :=
  "undefined" ++ previousHash ++ toString timestamp ++
    jsonStringify transactions ++ nonceStr

/-- `Block.calculateHash()` on a fully constructed block (`nonce` holds a
number). -/
def Block.calculateHash (H : HashFn) (b : Block) : String :=
  H (blockHashInput b.previousHash b.timestamp b.transactions
      (toString b.nonce))

/-- `new Block(timestamp, transactions, previousHash = '')`.  The
constructor runs `this.hash = this.calculateHash()` *before*
`this.nonce = 0`, so the initial hash is computed with `this.nonce`
still undefined (stringified as "undefined"). -/
def Block.build (H : HashFn) (timestamp : Nat) (transactions : TxsField)
    (previousHash : String := "") : Block :=
  { timestamp := timestamp
    transactions := transactions
    previousHash := previousHash
    hash := H (blockHashInput previousHash timestamp transactions "undefined")
    nonce := 0 }

/-- `Array(difficulty + 1).join('0')`: a string of `difficulty` zeros. -/
def difficultyTarget (difficulty : Nat) : String :=
  String.mk (List.replicate difficulty '0')

/-- `Block.mineBlock(difficulty)`: while the first `difficulty` characters
of `hash` are not all '0', increment `nonce` and recompute `hash`.  The
JavaScript loop is unbounded; `fuel` bounds the number of iterations here
and `none` reports fuel exhaustion. -/
def Block.mineBlock (H : HashFn) (difficulty : Nat) :
    Nat → Block → Option Block
  | fuel, b =>
    if b.hash.take difficulty = difficultyTarget difficulty then some b
    else
      match fuel with
      | 0 => none
      | fuel' + 1 =>
        Block.mineBlock H difficulty fuel'
          { b with
            nonce := b.nonce + 1
            hash := H (blockHashInput b.previousHash b.timestamp
                b.transactions (toString (b.nonce + 1))) }

/-- Body of `Block.hasValidTransactions()` on an array of transactions:
`for (const tx of ...) if (!tx.isValid()) return false; return true`,
propagating anything `isValid` throws. -/
def allTxsValid (H : HashFn) (verify : VerifyFn) :
    List Transactions → Except String Bool
  | [] => .ok true
  | t :: ts => do
    let v ← t.isValid H verify
    if !v then .ok false else allTxsValid H verify ts

/-- `Block.hasValidTransactions()`.  Iterating `for...of` over a *string*
`transactions` field yields one-character strings, which have no `isValid`
method, so the first iteration throws a TypeError (an empty string yields
no iterations). -/
def Block.hasValidTransactions (H : HashFn) (verify : VerifyFn)
    (b : Block) : Except String Bool :=
  match b.transactions with
  | .arr l => allTxsValid H verify l
  | .str s =>
    if s = "" then .ok true
    else .error "TypeError: tx.isValid is not a function"

structure Blockchain where
  chain : List Block
  difficulty : Nat
  pendingTransactions : List Transactions
  mimingReward : Nat
deriving DecidableEq

/-- `createGenesisBlock()`: `new Block(0, "02/10/2018", "GenesisBlock",
"0")`.  The `Block` constructor takes three parameters, so the fourth
argument "0" is discarded and the block stores `timestamp = 0`,
`transactions = "02/10/2018"` (a string), `previousHash =
"GenesisBlock"`. -/
def Blockchain.createGenesisBlock (H : HashFn) : Block :=
  Block.build H 0 (.str "02/10/2018") "GenesisBlock"

/-- `new Blockchain()`. -/
def Blockchain.init (H : HashFn) : Blockchain :=
  { chain := [Blockchain.createGenesisBlock H]
    difficulty := 2
    pendingTransactions := []
    mimingReward := 100 }

/-- `getLatestBlock()`: `this.chain[this.chain.length - 1]` (undefined on
an empty chain). -/
def Blockchain.getLatestBlock (bc : Blockchain) : Option Block :=
  bc.chain.getLast?

/-- `minePendingTransaction(miningRewardAddress)`: builds
`new Block(Date.now(), this.pendingTransactions)` — note that no
`previousHash` argument is passed, so it defaults to `''` — mines it,
appends it to the chain, and resets the pool to the single reward
transaction `new Transactions(null, miningRewardAddress,
this.mimingReward)`.  `now` stands for `Date.now()` and `fuel` bounds the
mining loop. -/
def Blockchain.minePendingTransaction (H : HashFn) (fuel : Nat) (now : Nat)
    (miningRewardAddress : Option String) (bc : Blockchain) :
    Option Blockchain :=
  match Block.mineBlock H bc.difficulty fuel
      (Block.build H now (.arr bc.pendingTransactions)) with
  | none => none
  | some mined =>
    some { bc with
      chain := bc.chain ++ [mined]
      pendingTransactions :=
        [{ fromAddress := none
           toAddress := miningRewardAddress
           amount := bc.mimingReward
           signature := none }] }

/-- JavaScript truthiness of a nullable string field: `null`, `undefined`
and `""` are falsy. -/
def truthyAddr : Option String → Bool
  | none => false
  | some s => s != ""

/-- `addTransaction(transaction)`: throws when `fromAddress` or
`toAddress` is falsy, throws (or propagates a throw from `isValid`) when
the transaction is invalid, otherwise pushes it onto the pending pool. -/
def Blockchain.addTransaction (H : HashFn) (verify : VerifyFn)
    (bc : Blockchain) (t : Transactions) : Except String Blockchain :=
  if !truthyAddr t.fromAddress || !truthyAddr t.toAddress then
    .error "Transaction must include from and to address"
  else do
    let v ← t.isValid H verify
    if !v then .error "Cannot add an invalid transaction to the chain"
    else .ok { bc with pendingTransactions := bc.pendingTransactions ++ [t] }

/-- One transaction's effect on a running balance in
`getAddressOfBalance`. -/
def txBalanceStep (address : Option String) (balance : Int)
    (t : Transactions) : Int :=
  let balance := if t.fromAddress = address then balance - t.amount
                 else balance
  if t.toAddress = address then balance + t.amount else balance

/-- One block's effect on a running balance.  Iterating `for...of` over the
genesis block's *string* `transactions` field yields one-character strings
whose `fromAddress`/`toAddress` are undefined; `undefined` is never
strictly equal to a null-or-string address, so the balance is unchanged. -/
def blockBalance (address : Option String) (balance : Int) (b : Block) :
    Int :=
  match b.transactions with
  | .arr l => l.foldl (txBalanceStep address) balance
  | .str _ => balance

/-- `getAddressOfBalance(address)`. -/
def Blockchain.getAddressOfBalance (bc : Blockchain)
    (address : Option String) : Int :=
  bc.chain.foldl (blockBalance address) 0

/-- The validation loop of `isChainValid()`, processing
`chain[i]` for `i ≥ 1` with `prev = chain[i-1]`. -/
def chainValidFrom (H : HashFn) (verify : VerifyFn) :
    Block → List Block → Except String Bool
  | _, [] => .ok true
  | prev, cur :: rest => do
    let tv ← cur.hasValidTransactions H verify
    if !tv then .ok false
    else if cur.hash ≠ cur.calculateHash H then .ok false
    else if cur.previousHash ≠ prev.hash then .ok false
    else chainValidFrom H verify cur rest

/-- `isChainValid()`: the loop starts at index 1, so the genesis block is
only ever read through `previousBlock.hash`. -/
def Blockchain.isChainValid (H : HashFn) (verify : VerifyFn)
    (bc : Blockchain) : Except String Bool :=
  match bc.chain with
  | [] => .ok true
  | g :: rest => chainValidFrom H verify g rest

deriving instance DecidableEq for Except

/-! ### Concrete instances used to evaluate the model on closed inputs -/

/-- A 64-character hex string, the shape of every SHA256 hex digest. -/
def zeros64 : String := String.mk (List.replicate 64 '0')

/-- A constant stand-in digest function (its outputs have digest shape and
meet any leading-zero target, so mining terminates immediately). -/
def H0 : HashFn := fun _ => zeros64

def verifyTrue : VerifyFn := fun _ _ _ => true

def verifyFalse : VerifyFn := fun _ _ _ => false

def keyA : SigningKey := { pub := "addrA", sign := fun _ => "sigA" }

/-- The driver's `tx1 = new Transactions(myWalletAddress, ..., 10)`. -/
def scenarioTx : Transactions :=
  { fromAddress := some "addrA", toAddress := some "addrB", amount := 10 }

/-- Fresh ledger; sign `scenarioTx` with the matching key; add it. -/
def scenarioRun1 : Except String Blockchain := do
  let tx ← Transactions.signTransaction H0 keyA scenarioTx
  Blockchain.addTransaction H0 verifyTrue (Blockchain.init H0) tx

/-- ... then mine the pending pool with the signer as miner. -/
def scenarioRun2 : Option Blockchain :=
  scenarioRun1.toOption.bind
    (Blockchain.minePendingTransaction H0 5 1234 (some "addrA"))

def txJsonPre (t : Transactions) : String :=
  "\x7b\"fromAddress\":" ++ jsonOfAddr t.fromAddress ++
  ",\"toAddress\":" ++ jsonOfAddr t.toAddress ++ ",\"amount\":"

def txJsonPost (t : Transactions) : String :=
  (match t.signature with
   | none => ""
   | some s => ",\"signature\":" ++ jsonQuote s) ++ "\x7d"

def joinTail : List Transactions → String
  | [] => ""
  | u :: us => "," ++ joinJson (u :: us)

/-- One block passes all three checks of the validation loop against its
predecessor. -/
def stepOk (H : HashFn) (verify : VerifyFn) (prev cur : Block) : Prop :=
  cur.hasValidTransactions H verify = .ok true ∧
    cur.hash = cur.calculateHash H ∧
    cur.previousHash = prev.hash

/-- Every consecutive pair along a chain segment passes the loop's
checks. -/
def chainSteps (H : HashFn) (verify : VerifyFn) :
    Block → List Block → Prop
  | _, [] => True
  | prev, c :: cs => stepOk H verify prev c ∧ chainSteps H verify c cs

/-- The driver's tampering step: `savjeeCoin.chain[1].transactions[0].amount = 1`
(a no-op when the chain or that block's transaction array is too short). -/
def tamperScenario (bc : Blockchain) : Blockchain :=
  match bc.chain with
  | g :: b :: rest =>
    match b.transactions with
    | .arr (t :: ts) =>
      { bc with chain :=
          g :: ({ b with transactions := .arr ({ t with amount := 1 } :: ts) }
            : Block) :: rest }
    | _ => bc
  | _ => bc

/-- A caller-submitted reward-shaped transaction: null sender, present
recipient. -/
def rewardShaped : Transactions :=
  { fromAddress := none, toAddress := some "addrB", amount := 5 }

/-- Mining a fresh ledger (empty pending pool). -/
def mineOnFresh : Option Blockchain :=
  Blockchain.minePendingTransaction H0 1 99 (some "minerM")
    (Blockchain.init H0)

/-- A block whose first transaction fails signature verification and whose
second transaction is unsigned. -/
def blockTwoTx : Block :=
  { timestamp := 0
    transactions := .arr
      [{ fromAddress := some "x", toAddress := some "y", amount := 1,
         signature := some "s" },
       { fromAddress := some "x", toAddress := some "y", amount := 1,
         signature := none }]
    previousHash := ""
    hash := ""
    nonce := 0 }

/-- The signed form of `scenarioTx` under `H0`/`keyA`. -/
def tx1c : Transactions :=
  { fromAddress := some "addrA", toAddress := some "addrB", amount := 10,
    signature := some "sigA" }

/-- The ledger after `addTransaction` in the concrete scenario. -/
def bc1c : Blockchain :=
  { chain := [Blockchain.createGenesisBlock H0]
    difficulty := 2
    pendingTransactions := [tx1c]
    mimingReward := 100 }

/-- The ledger after `minePendingTransaction` in the concrete scenario. -/
def bc2c : Blockchain :=
  { bc1c with
    chain := bc1c.chain ++ [Block.build H0 1234 (.arr [tx1c])]
    pendingTransactions :=
      [{ fromAddress := none, toAddress := some "addrA", amount := 100,
         signature := none }] }

/-- An unsigned transaction with a non-null sender. -/
def txUnsigned : Transactions :=
  { fromAddress := some "x", toAddress := some "y", amount := 1,
    signature := none }

/-- A block whose only transaction is unsigned. -/
def blockUnsigned : Block :=
  { timestamp := 0
    transactions := .arr [txUnsigned]
    previousHash := ""
    hash := ""
    nonce := 0 }

/-- A two-block chain whose second block holds only `txUnsigned`. -/
def bcUnsigned : Blockchain :=
  { chain := [Blockchain.createGenesisBlock H0, blockUnsigned]
    difficulty := 2
    pendingTransactions := []
    mimingReward := 100 }

/-- A block with no transactions whose stored hash does not match its
recomputed digest under `H0`. -/
def blockEmptyBadHash : Block :=
  { timestamp := 0, transactions := .arr [], previousHash := "",
    hash := "x", nonce := 0 }

/-- A block with no transactions whose stored hash matches its recomputed
digest under `H0` but whose `previousHash` is junk. -/
def blockEmptyGoodHash : Block :=
  { timestamp := 0, transactions := .arr [], previousHash := "p",
    hash := zeros64, nonce := 0 }

/-- A reward-style transaction used in a hand-built valid chain. -/
def t0w : Transactions :=
  { fromAddress := none, toAddress := some "M", amount := 5 }

/-- A stand-in genesis block for a hand-built chain under `id`. -/
def gW : Block :=
  { timestamp := 0, transactions := .str "g", previousHash := "",
    hash := "ghash", nonce := 0 }

/-- The second block of the hand-built chain, before its hash is set. -/
def bWaux : Block :=
  { timestamp := 1, transactions := .arr [t0w], previousHash := "ghash",
    hash := "", nonce := 0 }

/-- The second block with its stored hash equal to its digest under
`id`. -/
def bW : Block := { bWaux with hash := Block.calculateHash id bWaux }

/-- A hand-built two-block chain that `isChainValid` accepts under the
injective digest `id`. -/
def bcW : Blockchain :=
  { chain := [gW, bW], difficulty := 2, pendingTransactions := [],
    mimingReward := 100 }

/-- The record produced by signing `(A = key.pub, B, 10)` with `key`. -/
def signedTx (H : HashFn) (key : SigningKey) (B : String) : Transactions :=
  { fromAddress := some key.pub, toAddress := some B, amount := 10,
    signature := some (key.sign (Transactions.calculateHash H
      { fromAddress := some key.pub, toAddress := some B, amount := 10,
        signature := none })) }

/-! ### Decimal rendering of naturals is injective

`toString (n : Nat)` is `Nat.repr`, whose digits we re-express without
fuel to prove injectivity (needed because block serialization embeds
transaction amounts as decimal numerals). -/

def natDigits (n : Nat) : List Char :=
  if n < 10 then [Nat.digitChar n]
  else natDigits (n / 10) ++ [Nat.digitChar (n % 10)]
decreasing_by exact Nat.div_lt_self (by omega) (by omega)

theorem natDigits_lt (n : Nat) (h : n < 10) :
    natDigits n = [Nat.digitChar n] := by
  unfold natDigits; simp [h]

theorem natDigits_ge (n : Nat) (h : ¬ n < 10) :
    natDigits n = natDigits (n / 10) ++ [Nat.digitChar (n % 10)] := by
  conv_lhs => unfold natDigits
  simp [h]

theorem toDigitsCore_eq_natDigits :
    ∀ (fuel n : Nat) (ds : List Char), n < fuel →
      Nat.toDigitsCore 10 fuel n ds = natDigits n ++ ds := by
  intro fuel
  induction fuel with
  | zero => omega
  | succ fuel ih =>
    intro n ds hn
    simp only [Nat.toDigitsCore]
    by_cases h0 : n / 10 = 0
    · have hlt : n < 10 := by omega
      rw [if_pos h0, natDigits_lt n hlt, Nat.mod_eq_of_lt hlt]
      rfl
    · have hge : ¬ n < 10 := by
        intro hc
        exact h0 (Nat.div_eq_of_lt hc)
      rw [if_neg h0, ih (n / 10) _ (by
        have := Nat.div_lt_self (by omega : 0 < n) (by omega : 1 < 10)
        omega), natDigits_ge n hge, List.append_assoc]
      rfl

theorem natDigits_ne_nil (n : Nat) : natDigits n ≠ [] := by
  by_cases h : n < 10
  · rw [natDigits_lt n h]; simp
  · rw [natDigits_ge n h]; simp

theorem digitChar_inj_lt :
    ∀ a, a < 10 → ∀ b, b < 10 → Nat.digitChar a = Nat.digitChar b →
      a = b := by decide

theorem natDigits_inj :
    ∀ m n : Nat, natDigits m = natDigits n → m = n := by
  intro m
  induction m using Nat.strong_induction_on with
  | _ m ih =>
    intro n h
    by_cases hm : m < 10 <;> by_cases hn : n < 10
    · rw [natDigits_lt m hm, natDigits_lt n hn] at h
      exact digitChar_inj_lt m hm n hn (List.head_eq_of_cons_eq h)
    · rw [natDigits_lt m hm, natDigits_ge n hn] at h
      have := congrArg List.length h
      simp at this
      exact absurd this (natDigits_ne_nil _)
    · rw [natDigits_ge m hm, natDigits_lt n hn] at h
      have := congrArg List.length h
      simp at this
      exact absurd this (natDigits_ne_nil _)
    · rw [natDigits_ge m hm, natDigits_ge n hn] at h
      obtain ⟨h1, h2⟩ := List.append_inj' h (by simp)
      have hdiv : m / 10 = n / 10 :=
        ih (m / 10) (Nat.div_lt_self (by omega) (by omega)) _ h1
      have hmod : m % 10 = n % 10 :=
        digitChar_inj_lt _ (Nat.mod_lt _ (by omega)) _
          (Nat.mod_lt _ (by omega)) (List.head_eq_of_cons_eq h2)
      omega

theorem natRepr_inj {m n : Nat} (h : Nat.repr m = Nat.repr n) : m = n := by
  have hm : Nat.repr m = (natDigits m).asString := by
    show (Nat.toDigits 10 m).asString = _
    rw [Nat.toDigits, toDigitsCore_eq_natDigits (m + 1) m [] (by omega),
      List.append_nil]
  have hn : Nat.repr n = (natDigits n).asString := by
    show (Nat.toDigits 10 n).asString = _
    rw [Nat.toDigits, toDigitsCore_eq_natDigits (n + 1) n [] (by omega),
      List.append_nil]
  rw [hm, hn] at h
  exact natDigits_inj m n (congrArg String.data h)

theorem natToString_inj {m n : Nat} (h : toString m = toString n) :
    m = n := natRepr_inj h

/-! ### Cancellation for string concatenation -/

theorem str_cancel_left {p a b : String} (h : p ++ a = p ++ b) : a = b := by
  apply String.ext
  have := congrArg String.data h
  simp only [String.data_append] at this
  exact List.append_cancel_left this

theorem str_cancel_right {a b s : String} (h : a ++ s = b ++ s) : a = b := by
  apply String.ext
  have := congrArg String.data h
  simp only [String.data_append] at this
  exact List.append_cancel_right this

theorem str_cancel_mid {p s a b : String}
    (h : p ++ a ++ s = p ++ b ++ s) : a = b :=
  str_cancel_left (str_cancel_right h)

/-! ### Changing a transaction amount changes the serialized block -/

theorem jsonOfTx_decomp (t : Transactions) :
    jsonOfTx t = txJsonPre t ++ toString t.amount ++ txJsonPost t := by
  simp [jsonOfTx, txJsonPre, txJsonPost, String.append_assoc]

theorem jsonOfTx_amount_ne (t : Transactions) (a : Nat)
    (ha : a ≠ t.amount) :
    jsonOfTx { t with amount := a } ≠ jsonOfTx t := by
  intro h
  rw [jsonOfTx_decomp, jsonOfTx_decomp] at h
  have hpre : txJsonPre { t with amount := a } = txJsonPre t := rfl
  have hpost : txJsonPost { t with amount := a } = txJsonPost t := rfl
  rw [hpre, hpost] at h
  exact ha (natToString_inj (str_cancel_mid h))

theorem joinJson_cons (t : Transactions) (l : List Transactions) :
    joinJson (t :: l) = jsonOfTx t ++ joinTail l := by
  cases l with
  | nil => simp [joinJson, joinTail]
  | cons u us => simp [joinJson, joinTail, String.append_assoc]

theorem joinJson_amount_ne :
    ∀ (l1 : List Transactions) (t : Transactions) (l2 : List Transactions)
      (a : Nat), a ≠ t.amount →
      joinJson (l1 ++ { t with amount := a } :: l2) ≠
        joinJson (l1 ++ t :: l2) := by
  intro l1
  induction l1 with
  | nil =>
    intro t l2 a ha h
    rw [List.nil_append, List.nil_append, joinJson_cons, joinJson_cons] at h
    exact jsonOfTx_amount_ne t a ha (str_cancel_right h)
  | cons x l1 ih =>
    intro t l2 a ha h
    rw [List.cons_append, List.cons_append, joinJson_cons, joinJson_cons] at h
    have htails := str_cancel_left h
    cases l1 with
    | nil =>
      simp only [List.nil_append, joinTail] at htails
      exact ih t l2 a ha (by simpa using str_cancel_left htails)
    | cons y l1' =>
      simp only [List.cons_append, joinTail] at htails
      exact ih t l2 a ha (by simpa using str_cancel_left htails)

theorem jsonStringify_amount_ne (l1 : List Transactions)
    (t : Transactions) (l2 : List Transactions) (a : Nat)
    (ha : a ≠ t.amount) :
    jsonStringify (.arr (l1 ++ { t with amount := a } :: l2)) ≠
      jsonStringify (.arr (l1 ++ t :: l2)) := by
  intro h
  simp only [jsonStringify] at h
  exact joinJson_amount_ne l1 t l2 a ha (str_cancel_mid h)

theorem blockHashInput_amount_ne (previousHash : String)
    (timestamp : Nat) (nonceStr : String) (l1 : List Transactions)
    (t : Transactions) (l2 : List Transactions) (a : Nat)
    (ha : a ≠ t.amount) :
    blockHashInput previousHash timestamp
        (.arr (l1 ++ { t with amount := a } :: l2)) nonceStr ≠
      blockHashInput previousHash timestamp (.arr (l1 ++ t :: l2))
        nonceStr := by
  intro h
  simp only [blockHashInput] at h
  exact jsonStringify_amount_ne l1 t l2 a ha
    (str_cancel_left (str_cancel_right h))

/-- Replacing one transaction's amount with a different value changes the
recomputed block hash, provided the digest function is injective. -/
theorem calculateHash_amount_ne (H : HashFn)
    (hinj : Function.Injective H) (b : Block) (l1 : List Transactions)
    (t : Transactions) (l2 : List Transactions) (a : Nat)
    (hb : b.transactions = .arr (l1 ++ t :: l2)) (ha : a ≠ t.amount) :
    Block.calculateHash H
        { b with transactions := .arr (l1 ++ { t with amount := a } :: l2) } ≠
      Block.calculateHash H b := by
  intro h
  simp only [Block.calculateHash, hb] at h
  exact blockHashInput_amount_ne b.previousHash b.timestamp
    (toString b.nonce) l1 t l2 a ha (hinj h)


/-! ### Facts about the transaction-validation loop -/

theorem exc_bind_error {ε α β : Type} (e : ε) (f : α → Except ε β) :
    (Except.error e >>= f : Except ε β) = .error e := rfl

theorem exc_bind_ok {ε α β : Type} (a : α) (f : α → Except ε β) :
    (Except.ok a >>= f : Except ε β) = f a := rfl

theorem allTxsValid_cons_ok_true {H : HashFn} {verify : VerifyFn}
    {t : Transactions} {ts : List Transactions}
    (h : allTxsValid H verify (t :: ts) = .ok true) :
    t.isValid H verify = .ok true ∧ allTxsValid H verify ts = .ok true := by
  cases hv : t.isValid H verify with
  | error e => simp [allTxsValid, hv, exc_bind_error] at h
  | ok v =>
    cases v with
    | false => simp [allTxsValid, hv, exc_bind_ok] at h
    | true =>
      simp only [allTxsValid, hv, exc_bind_ok, Bool.not_true,
        Bool.false_eq_true, if_false] at h
      exact ⟨rfl, h⟩

theorem allTxsValid_split {H : HashFn} {verify : VerifyFn} :
    ∀ {l1 : List Transactions} {t : Transactions} {l2 : List Transactions},
      allTxsValid H verify (l1 ++ t :: l2) = .ok true →
      (∀ u ∈ l1, u.isValid H verify = .ok true) ∧
        t.isValid H verify = .ok true ∧
        allTxsValid H verify l2 = .ok true := by
  intro l1
  induction l1 with
  | nil =>
    intro t l2 h
    rw [List.nil_append] at h
    obtain ⟨h1, h2⟩ := allTxsValid_cons_ok_true h
    exact ⟨by simp, h1, h2⟩
  | cons x l1 ih =>
    intro t l2 h
    rw [List.cons_append] at h
    obtain ⟨hx, hrest⟩ := allTxsValid_cons_ok_true h
    obtain ⟨ha, hb, hc⟩ := ih hrest
    refine ⟨?_, hb, hc⟩
    intro u hu
    rcases List.mem_cons.mp hu with h | h
    · subst h; exact hx
    · exact ha u h

theorem allTxsValid_append_of_ok {H : HashFn} {verify : VerifyFn} :
    ∀ {l1 : List Transactions},
      (∀ u ∈ l1, u.isValid H verify = .ok true) →
      ∀ (l2 : List Transactions),
        allTxsValid H verify (l1 ++ l2) = allTxsValid H verify l2 := by
  intro l1
  induction l1 with
  | nil => intro _ l2; rw [List.nil_append]
  | cons x l1 ih =>
    intro hall l2
    rw [List.cons_append]
    have hx : x.isValid H verify = .ok true := hall x (by simp)
    simp only [allTxsValid, hx, exc_bind_ok, Bool.not_true,
      Bool.false_eq_true, if_false]
    exact ih (fun u hu => hall u (by simp [hu])) l2

/-- Changing only the amount of a transaction that currently validates to
`ok true` cannot make `isValid` throw: the signature is still present. -/
theorem isValid_set_amount {H : HashFn} {verify : VerifyFn}
    {t : Transactions} (a : Nat) (h : t.isValid H verify = .ok true) :
    ∃ v, Transactions.isValid H verify { t with amount := a } = .ok v := by
  cases hf : t.fromAddress with
  | none => exact ⟨true, by simp [Transactions.isValid, hf]⟩
  | some fromAddr =>
    cases hs : t.signature with
    | none => simp [Transactions.isValid, hf, hs] at h
    | some sig =>
      by_cases hemp : sig = ""
      · simp [Transactions.isValid, hf, hs, hemp] at h
      · refine ⟨verify fromAddr
          (Transactions.calculateHash H { t with amount := a }) sig, ?_⟩
        simp [Transactions.isValid, hf, hs, hemp]

/-! ### Facts about the chain-validation loop -/

theorem chainValidFrom_cons_ok_true {H : HashFn} {verify : VerifyFn}
    {prev cur : Block} {rest : List Block}
    (h : chainValidFrom H verify prev (cur :: rest) = .ok true) :
    cur.hasValidTransactions H verify = .ok true ∧
      cur.hash = cur.calculateHash H ∧
      cur.previousHash = prev.hash ∧
      chainValidFrom H verify cur rest = .ok true := by
  cases hv : cur.hasValidTransactions H verify with
  | error e => simp [chainValidFrom, hv, exc_bind_error] at h
  | ok tv =>
    cases tv with
    | false => simp [chainValidFrom, hv, exc_bind_ok] at h
    | true =>
      simp only [chainValidFrom, hv, exc_bind_ok, Bool.not_true,
        Bool.false_eq_true, if_false] at h
      by_cases h1 : cur.hash = cur.calculateHash H
      · by_cases h2 : cur.previousHash = prev.hash
        · simp only [h1, h2, ne_eq, not_true_eq_false, if_false] at h
          exact ⟨rfl, h1, h2, h⟩
        · simp [h1, h2] at h
      · simp [h1] at h

/-- The step the loop takes on a block whose transactions currently
validate and whose stored hash currently matches, after one transaction
amount is replaced by a different value: the loop returns `ok false`. -/
theorem chainValidFrom_mutated (H : HashFn) (verify : VerifyFn)
    (hinj : Function.Injective H) (prev b : Block) (rest : List Block)
    (l1 : List Transactions) (t : Transactions) (l2 : List Transactions)
    (a : Nat) (hb : b.transactions = .arr (l1 ++ t :: l2))
    (hvalid : b.hasValidTransactions H verify = .ok true)
    (hhash : b.hash = b.calculateHash H) (ha : a ≠ t.amount) :
    chainValidFrom H verify prev
      (({ b with transactions := .arr (l1 ++ { t with amount := a } :: l2) }
        : Block) :: rest) = .ok false := by
  have hvalid' : allTxsValid H verify (l1 ++ t :: l2) = .ok true := by
    simpa [Block.hasValidTransactions, hb] using hvalid
  obtain ⟨hl1, ht, hl2⟩ := allTxsValid_split hvalid'
  obtain ⟨v, hv⟩ := isValid_set_amount a ht
  have hmut : Block.hasValidTransactions H verify
      ({ b with transactions := .arr (l1 ++ { t with amount := a } :: l2) }
        : Block) =
      allTxsValid H verify (l1 ++ { t with amount := a } :: l2) := rfl
  rw [allTxsValid_append_of_ok hl1] at hmut
  cases v with
  | false =>
    have hmutf : Block.hasValidTransactions H verify
        ({ b with transactions := .arr (l1 ++ { t with amount := a } :: l2) }
          : Block) = .ok false := by
      rw [hmut]
      simp [allTxsValid, hv, exc_bind_ok]
    simp [chainValidFrom, hmutf, exc_bind_ok]
  | true =>
    have hmutt : Block.hasValidTransactions H verify
        ({ b with transactions := .arr (l1 ++ { t with amount := a } :: l2) }
          : Block) = .ok true := by
      rw [hmut]
      simp [allTxsValid, hv, exc_bind_ok, hl2]
    have hne :
        ({ b with transactions := .arr (l1 ++ { t with amount := a } :: l2) }
          : Block).hash ≠
        Block.calculateHash H
          ({ b with transactions := .arr (l1 ++ { t with amount := a } :: l2) }
            : Block) := by
      show b.hash ≠ _
      rw [hhash]
      exact fun hcontra =>
        calculateHash_amount_ne H hinj b l1 t l2 a hb ha hcontra.symm
    simp [chainValidFrom, hmutt, exc_bind_ok, hne]

theorem chainValidFrom_cons_of_stepOk {H : HashFn} {verify : VerifyFn}
    {prev cur : Block} (hok : stepOk H verify prev cur)
    (rest : List Block) :
    chainValidFrom H verify prev (cur :: rest) =
      chainValidFrom H verify cur rest := by
  obtain ⟨h1, h2, h3⟩ := hok
  simp [chainValidFrom, h1, h2, h3, exc_bind_ok]

/-- When every block of a prefix passes the checks, the loop reduces to
the loop on the remainder (started from some predecessor block). -/
theorem chainValidFrom_reach {H : HashFn} {verify : VerifyFn} :
    ∀ (c1 : List Block) (prev : Block),
      chainSteps H verify prev c1 → ∀ (rest : List Block),
      ∃ p, chainValidFrom H verify prev (c1 ++ rest) =
        chainValidFrom H verify p rest := by
  intro c1
  induction c1 with
  | nil => intro prev _ rest; exact ⟨prev, rfl⟩
  | cons x c1 ih =>
    intro prev hsteps rest
    obtain ⟨hx, hrest⟩ := hsteps
    obtain ⟨p, hp⟩ := ih x hrest rest
    rw [List.cons_append, chainValidFrom_cons_of_stepOk hx]
    exact ⟨p, hp⟩

/-- Mutating one amount inside any block of a loop-accepted segment makes
the loop return `ok false`. -/
theorem chainValidFrom_mutate_any (H : HashFn) (verify : VerifyFn)
    (hinj : Function.Injective H) :
    ∀ (c1 : List Block) (g b : Block) (c2 : List Block)
      (l1 : List Transactions) (t : Transactions) (l2 : List Transactions)
      (a : Nat),
      b.transactions = .arr (l1 ++ t :: l2) →
      a ≠ t.amount →
      chainValidFrom H verify g (c1 ++ b :: c2) = .ok true →
      chainValidFrom H verify g
        (c1 ++
          ({ b with transactions := .arr (l1 ++ { t with amount := a } :: l2) }
            : Block) :: c2) = .ok false := by
  intro c1
  induction c1 with
  | nil =>
    intro g b c2 l1 t l2 a hb ha hvalid
    rw [List.nil_append] at hvalid ⊢
    obtain ⟨h1, h2, _, _⟩ := chainValidFrom_cons_ok_true hvalid
    exact chainValidFrom_mutated H verify hinj g b c2 l1 t l2 a hb h1 h2 ha
  | cons x c1 ih =>
    intro g b c2 l1 t l2 a hb ha hvalid
    rw [List.cons_append] at hvalid ⊢
    obtain ⟨h1, h2, h3, h4⟩ := chainValidFrom_cons_ok_true hvalid
    rw [chainValidFrom_cons_of_stepOk ⟨h1, h2, h3⟩]
    exact ih x b c2 l1 t l2 a hb ha h4

/-! ### Inversion lemmas for the ledger operations -/

theorem signTransaction_ok {H : HashFn} {key : SigningKey}
    {t t' : Transactions}
    (h : Transactions.signTransaction H key t = .ok t') :
    t.fromAddress = some key.pub ∧
      t' = { t with signature := some (key.sign (t.calculateHash H)) } := by
  unfold Transactions.signTransaction at h
  split at h
  · cases h
  · next hcond =>
    refine ⟨(not_not.mp hcond).symm, ?_⟩
    exact (Except.ok.inj h).symm

theorem addTransaction_ok {H : HashFn} {verify : VerifyFn}
    {bc bc' : Blockchain} {t : Transactions}
    (h : Blockchain.addTransaction H verify bc t = .ok bc') :
    truthyAddr t.fromAddress = true ∧ truthyAddr t.toAddress = true ∧
      t.isValid H verify = .ok true ∧
      bc' = { bc with
        pendingTransactions := bc.pendingTransactions ++ [t] } := by
  unfold Blockchain.addTransaction at h
  split at h
  · cases h
  · next hcond =>
    have hfrom : truthyAddr t.fromAddress = true := by
      cases hb : truthyAddr t.fromAddress
      · exact absurd (by simp [hb]) hcond
      · rfl
    have hto : truthyAddr t.toAddress = true := by
      cases hb : truthyAddr t.toAddress
      · exact absurd (by simp [hb]) hcond
      · rfl
    cases hv : t.isValid H verify with
    | error e => rw [hv, exc_bind_error] at h; cases h
    | ok v =>
      rw [hv, exc_bind_ok] at h
      cases v with
      | false => simp at h
      | true =>
        simp only [Bool.not_true, Bool.false_eq_true, if_false] at h
        exact ⟨hfrom, hto, rfl, (Except.ok.inj h).symm⟩

theorem mineBlock_some {H : HashFn} {d : Nat} :
    ∀ {fuel : Nat} {b b' : Block},
      Block.mineBlock H d fuel b = some b' →
      b'.transactions = b.transactions ∧
        b'.previousHash = b.previousHash ∧
        b'.timestamp = b.timestamp ∧
        b'.hash.take d = difficultyTarget d := by
  intro fuel
  induction fuel with
  | zero =>
    intro b b' h
    unfold Block.mineBlock at h
    split at h
    · next hc => cases h; exact ⟨rfl, rfl, rfl, hc⟩
    · cases h
  | succ fuel ih =>
    intro b b' h
    unfold Block.mineBlock at h
    split at h
    · next hc => cases h; exact ⟨rfl, rfl, rfl, hc⟩
    · have h' : Block.mineBlock H d fuel
          { b with
            nonce := b.nonce + 1
            hash := H (blockHashInput b.previousHash b.timestamp
                b.transactions (toString (b.nonce + 1))) } = some b' := h
      obtain ⟨e1, e2, e3, e4⟩ := ih h'
      exact ⟨e1, e2, e3, e4⟩

theorem minePendingTransaction_some {H : HashFn} {fuel now : Nat}
    {addr : Option String} {bc bc' : Blockchain}
    (h : Blockchain.minePendingTransaction H fuel now addr bc = some bc') :
    ∃ mined,
      Block.mineBlock H bc.difficulty fuel
          (Block.build H now (.arr bc.pendingTransactions)) = some mined ∧
        bc' = { bc with
          chain := bc.chain ++ [mined]
          pendingTransactions :=
            [{ fromAddress := none, toAddress := addr,
               amount := bc.mimingReward, signature := none }] } := by
  unfold Blockchain.minePendingTransaction at h
  cases hm : Block.mineBlock H bc.difficulty fuel
      (Block.build H now (.arr bc.pendingTransactions)) with
  | none => rw [hm] at h; cases h
  | some mined =>
    rw [hm] at h
    exact ⟨mined, rfl, (Option.some.inj h).symm⟩

theorem calculateHash_build (H : HashFn) (ts : Nat) (txs : TxsField)
    (p : String) :
    Block.calculateHash H (Block.build H ts txs p) =
      H (blockHashInput p ts txs "0") := by
  simp only [Block.calculateHash, Block.build]
  rfl

/-! ### Claims -/

/-- C9: a freshly constructed ledger — and more generally any one-block
chain, whatever its genesis block holds — satisfies `IsChainValid() ==
true`: the validation loop starts at index 1, so a one-block chain is
vacuously valid and the genesis block's own hash and content are never
examined. -/
theorem C9_one_block_chain_valid :
    (∀ (H : HashFn) (verify : VerifyFn),
      (Blockchain.init H).isChainValid H verify = .ok true) ∧
    ∀ (H : HashFn) (verify : VerifyFn) (g : Block) (d : Nat)
      (p : List Transactions) (r : Nat),
      Blockchain.isChainValid H verify
        { chain := [g], difficulty := d, pendingTransactions := p,
          mimingReward := r } = .ok true :=
  ⟨fun _ _ => rfl, fun _ _ _ _ _ _ => rfl⟩

/-- C10: `minePendingTransaction` on a ledger with an empty pending pool
(whenever its mining loop terminates) still appends one block containing
zero transactions and still resets the pool to the single reward
transaction; there is no emptiness guard. -/
theorem C10_mine_empty_pool (H : HashFn) (fuel now : Nat)
    (addr : Option String) (bc bc' : Blockchain)
    (hpool : bc.pendingTransactions = [])
    (h : Blockchain.minePendingTransaction H fuel now addr bc = some bc') :
    ∃ mined, bc'.chain = bc.chain ++ [mined] ∧
      mined.transactions = .arr [] ∧
      bc'.chain.length = bc.chain.length + 1 ∧
      bc'.pendingTransactions =
        [{ fromAddress := none, toAddress := addr,
           amount := bc.mimingReward, signature := none }] := by
  obtain ⟨mined, hm, hbc⟩ := minePendingTransaction_some h
  obtain ⟨htx, _, _, _⟩ := mineBlock_some hm
  refine ⟨mined, ?_, ?_, ?_, ?_⟩
  · rw [hbc]
  · rw [htx]
    show TxsField.arr bc.pendingTransactions = _
    rw [hpool]
  · rw [hbc]; simp
  · rw [hbc]

theorem C10_witness :
    (Blockchain.init H0).pendingTransactions = [] ∧
    ∃ bc', Blockchain.minePendingTransaction H0 1 7 (some "m")
        (Blockchain.init H0) = some bc' ∧
      ∃ mined, bc'.chain = (Blockchain.init H0).chain ++ [mined] ∧
        mined.transactions = .arr [] ∧
        bc'.chain.length = (Blockchain.init H0).chain.length + 1 ∧
        bc'.pendingTransactions =
          [{ fromAddress := none, toAddress := some "m", amount := 100,
             signature := none }] := by
  refine ⟨rfl, ?_⟩
  cases hmine : Blockchain.minePendingTransaction H0 1 7 (some "m")
      (Blockchain.init H0) with
  | none => exact absurd hmine (by decide)
  | some bc' =>
    exact ⟨bc', rfl, C10_mine_empty_pool H0 1 7 (some "m")
      (Blockchain.init H0) bc' rfl hmine⟩

/-- C8 counterexample: the `Block` constructor computes the stored hash
before `this.nonce = 0` runs, so at this concrete input the stored hash
differs from the digest at nonce = 0, refuting the claim that the initial
hash equals the block digest evaluated at nonce = 0. -/
theorem C8_counterexample :
    (Block.build id 0 (.arr []) "").nonce = 0 ∧
      (Block.build id 0 (.arr []) "").hash ≠
        Block.calculateHash id (Block.build id 0 (.arr []) "") :=
  ⟨rfl, by decide⟩

/-- C8 (amended): construction sets `nonce = 0`, but the stored initial
hash is the digest computed before the nonce assignment, i.e. with the
nonce serialized as "undefined" — and hence (for an injective digest)
never the digest at nonce = 0. -/
theorem C8_constructor_initial_hash (H : HashFn) (timestamp : Nat)
    (transactions : TxsField) (previousHash : String) :
    (Block.build H timestamp transactions previousHash).nonce = 0 ∧
      (Block.build H timestamp transactions previousHash).hash =
        H (blockHashInput previousHash timestamp transactions "undefined") ∧
      (Function.Injective H →
        (Block.build H timestamp transactions previousHash).hash ≠
          Block.calculateHash H
            (Block.build H timestamp transactions previousHash)) := by
  refine ⟨rfl, rfl, fun hinj hcontra => ?_⟩
  rw [calculateHash_build] at hcontra
  have hh : (Block.build H timestamp transactions previousHash).hash =
      H (blockHashInput previousHash timestamp transactions "undefined") := rfl
  rw [hh] at hcontra
  have h1 := hinj hcontra
  simp only [blockHashInput] at h1
  exact absurd (str_cancel_left h1) (by decide)

theorem C8_witness :
    (Block.build id 1 (.str "x") "p").nonce = 0 ∧
      (Block.build id 1 (.str "x") "p").hash =
        id (blockHashInput "p" 1 (.str "x") "undefined") ∧
      (Block.build id 1 (.str "x") "p").hash ≠
        Block.calculateHash id (Block.build id 1 (.str "x") "p") := by
  obtain ⟨h1, h2, h3⟩ := C8_constructor_initial_hash id 1 (.str "x") "p"
  exact ⟨h1, h2, h3 (fun _ _ h => h)⟩

/-- C6: `signTransaction` throws the authorization error whenever the
signing key's public key is not strictly equal to `fromAddress` — leaving
the record unsigned, since the throw happens before the signature
assignment — and succeeds, setting the signature over the content hash,
exactly when they are equal. -/
theorem C6_sign_authorization (H : HashFn) (key : SigningKey)
    (t : Transactions) :
    (some key.pub ≠ t.fromAddress →
      Transactions.signTransaction H key t =
        .error "You cannot sign transactions for other wallets!") ∧
    (t.fromAddress = some key.pub →
      Transactions.signTransaction H key t =
        .ok { t with signature := some (key.sign (t.calculateHash H)) }) := by
  constructor
  · intro hne
    simp [Transactions.signTransaction, hne]
  · intro heq
    simp [Transactions.signTransaction, heq]

theorem C6_witness :
    Transactions.signTransaction H0 keyA
        { fromAddress := some "other", toAddress := some "b", amount := 1 } =
      .error "You cannot sign transactions for other wallets!" ∧
    Transactions.signTransaction H0 keyA
        { fromAddress := some "addrA", toAddress := some "b", amount := 1 } =
      .ok { fromAddress := some "addrA", toAddress := some "b", amount := 1,
            signature := some "sigA" } := by
  constructor
  · exact (C6_sign_authorization H0 keyA
      { fromAddress := some "other", toAddress := some "b", amount := 1 }).1
      (by decide)
  · rw [(C6_sign_authorization H0 keyA
      { fromAddress := some "addrA", toAddress := some "b", amount := 1 }).2
      rfl]
    rfl

/-- C5 counterexample: a transaction with null sender and present
recipient is rejected by `addTransaction` with the missing-address error,
refuting the claim that it is accepted and appended to the pending
pool. -/
theorem C5_counterexample :
    Blockchain.addTransaction H0 verifyTrue (Blockchain.init H0)
        rewardShaped =
      .error "Transaction must include from and to address" := by decide

/-- C5 (amended): `addTransaction` rejects every transaction with null
`senderAddress` — recipient present or not — at its first guard
(`!transactions.fromAddress`), throwing the missing-address error before
any signature check can run; reward-shaped submissions never reach the
pending pool. -/
theorem C5_null_sender_rejected (H : HashFn) (verify : VerifyFn)
    (bc : Blockchain) (t : Transactions) (h : t.fromAddress = none) :
    Blockchain.addTransaction H verify bc t =
      .error "Transaction must include from and to address" := by
  unfold Blockchain.addTransaction
  simp [truthyAddr, h]

theorem C5_witness :
    rewardShaped.fromAddress = none ∧
      Blockchain.addTransaction H0 verifyTrue (Blockchain.init H0)
          rewardShaped =
        .error "Transaction must include from and to address" :=
  ⟨rfl, C5_null_sender_rejected H0 verifyTrue (Blockchain.init H0)
    rewardShaped rfl⟩

/-- C2: evaluation at the failing input.  `minePendingTransaction` on a
fresh ledger appends a block whose `previousHash` is `''` (the constructor
default — no `previousHash` argument is passed), while
`getLatestBlock().hash` before the call is the 64-character genesis
digest, which `''` never equals; the pool-reset and append behaviour the
claim describes do hold. -/
theorem C2_mine_previousHash_eval :
    (mineOnFresh.map fun bc => bc.chain.map Block.previousHash) =
        some ["GenesisBlock", ""] ∧
      (mineOnFresh.map fun bc => bc.pendingTransactions) =
        some [{ fromAddress := none, toAddress := some "minerM",
                amount := 100, signature := none }] ∧
      ((Blockchain.init H0).getLatestBlock.map Block.hash) = some zeros64 ∧
      ("" : String) ≠ zeros64 :=
  ⟨by decide, by decide, by decide, by decide⟩

/-- C1: evaluation at the failing input.  The honest scenario — fresh
ledger, one properly signed transaction added, one mine — produces a
ledger on which `isChainValid` returns `ok false`, because the mined
block's `previousHash` is `''` and never matches the genesis hash. -/
theorem C1_honest_chain_invalid_eval :
    scenarioRun2.map (fun bc => bc.isChainValid H0 verifyTrue) =
      some (.ok false) := by decide

/-- C4 counterexample: after the one-transaction scenario the code
evaluates `BalanceOf(A)` to -10, not the claimed 90 — the mining reward
sits in the pending pool and is not yet part of any mined block. -/
theorem C4_counterexample :
    scenarioRun2.map (fun bc => bc.getAddressOfBalance (some "addrA")) =
        some (-10) ∧
      (-10 : Int) ≠ 90 :=
  ⟨by decide, by decide⟩

/-- C4 (amended): in the scenario — fresh ledger, `tx1 = (A, B, 10)`
signed by A, added, then mined with A as miner (whenever the mining loop
terminates) — the chain length becomes 2 and `BalanceOf(B) = 10`, but
`BalanceOf(A) = -10`, not 90: the 100-unit reward transaction sits in the
pending pool after mining and is not part of any mined block yet. -/
theorem C4_scenario_balances (H : HashFn) (verify : VerifyFn)
    (key : SigningKey) (B : String) (fuel now : Nat) (tx1 : Transactions)
    (bc1 bc2 : Blockchain) (hAB : key.pub ≠ B)
    (hsign : Transactions.signTransaction H key
        { fromAddress := some key.pub, toAddress := some B, amount := 10,
          signature := none } = .ok tx1)
    (hadd : Blockchain.addTransaction H verify (Blockchain.init H) tx1 =
      .ok bc1)
    (hmine : Blockchain.minePendingTransaction H fuel now (some key.pub)
        bc1 = some bc2) :
    bc2.chain.length = 2 ∧
      bc2.getAddressOfBalance (some key.pub) = -10 ∧
      bc2.getAddressOfBalance (some B) = 10 := by
  obtain ⟨-, htx⟩ := signTransaction_ok hsign
  obtain ⟨-, -, -, hbc1⟩ := addTransaction_ok hadd
  obtain ⟨mined, hm, hbc2⟩ := minePendingTransaction_some hmine
  obtain ⟨htrans, -, -, -⟩ := mineBlock_some hm
  have hBA : ¬ (B = key.pub) := fun h => hAB h.symm
  have htrans2 : mined.transactions =
      .arr ((Blockchain.init H).pendingTransactions ++ [tx1]) := by
    rw [htrans, hbc1]
    rfl
  have htrans3 : mined.transactions = .arr [tx1] := by
    rw [htrans2]
    simp [Blockchain.init]
  subst hbc2
  subst hbc1
  subst htx
  refine ⟨?_, ?_, ?_⟩
  · simp [Blockchain.init]
  · simp [Blockchain.getAddressOfBalance, Blockchain.init,
      Blockchain.createGenesisBlock, Block.build, blockBalance, htrans3,
      txBalanceStep, hBA, hAB]
  · simp [Blockchain.getAddressOfBalance, Blockchain.init,
      Blockchain.createGenesisBlock, Block.build, blockBalance, htrans3,
      txBalanceStep, hBA, hAB]

theorem C4_witness :
    keyA.pub ≠ "addrB" ∧ bc2c.chain.length = 2 ∧
      bc2c.getAddressOfBalance (some keyA.pub) = -10 ∧
      bc2c.getAddressOfBalance (some "addrB") = 10 := by
  have h1 : Transactions.signTransaction H0 keyA
      { fromAddress := some keyA.pub, toAddress := some "addrB",
        amount := 10, signature := none } = .ok tx1c := by decide
  have h2 : Blockchain.addTransaction H0 verifyTrue (Blockchain.init H0)
      tx1c = .ok bc1c := by decide
  have h3 : Blockchain.minePendingTransaction H0 5 1234 (some keyA.pub)
      bc1c = some bc2c := by decide
  exact ⟨by decide, C4_scenario_balances H0 verifyTrue keyA "addrB" 5 1234
    tx1c bc1c bc2c (by decide) h1 h2 h3⟩

theorem isValid_missing_sig {H : HashFn} {verify : VerifyFn}
    {t : Transactions} {fa : String} (hfa : t.fromAddress = some fa)
    (hsig : t.signature = none ∨ t.signature = some "") :
    t.isValid H verify = .error "No signature in this transaction" := by
  rcases hsig with h | h <;> simp [Transactions.isValid, hfa, h]

theorem allTxsValid_error_at {H : HashFn} {verify : VerifyFn}
    {l1 : List Transactions} {t : Transactions} {l2 : List Transactions}
    (hl1 : ∀ u ∈ l1, u.isValid H verify = .ok true)
    (ht : t.isValid H verify = .error "No signature in this transaction") :
    allTxsValid H verify (l1 ++ t :: l2) =
      .error "No signature in this transaction" := by
  rw [allTxsValid_append_of_ok hl1]
  simp [allTxsValid, ht, exc_bind_error]

theorem hasValid_missing_sig {H : HashFn} {verify : VerifyFn} {b : Block}
    {l1 : List Transactions} {t : Transactions} {l2 : List Transactions}
    {fa : String} (hb : b.transactions = .arr (l1 ++ t :: l2))
    (hl1 : ∀ u ∈ l1, u.isValid H verify = .ok true)
    (hfa : t.fromAddress = some fa)
    (hsig : t.signature = none ∨ t.signature = some "") :
    b.hasValidTransactions H verify =
      .error "No signature in this transaction" := by
  have h := @allTxsValid_error_at H verify l1 t l2 hl1
    (isValid_missing_sig hfa hsig)
  simpa [Block.hasValidTransactions, hb] using h

theorem chainValidFrom_error_head {H : HashFn} {verify : VerifyFn}
    {prev b : Block} {rest : List Block} {e : String}
    (h : b.hasValidTransactions H verify = .error e) :
    chainValidFrom H verify prev (b :: rest) = .error e := by
  simp [chainValidFrom, h, exc_bind_error]

/-- C7 counterexample: this block contains a transaction with non-null
sender and absent signature (its second), yet `hasValidTransactions`
returns `ok false` instead of raising: the loop short-circuits on the
first transaction, whose signature fails verification. -/
theorem C7_counterexample :
    Block.hasValidTransactions H0 verifyFalse blockTwoTx = .ok false := by
  decide

/-- C7 (amended): when validation actually reaches a transaction with
non-null sender and absent-or-empty signature (every earlier transaction
in the block verifies to true), `hasValidTransactions` — and
`isChainValid` when its loop reaches that block — raises the
missing-signature error rather than returning a boolean; a failed
signature verification yields `ok false` at the transaction, a
transaction-set failure, a stored-hash mismatch, and a `previousHash`
linkage mismatch each make the loop return `ok false`. -/
theorem C7_error_vs_false_policy :
    (∀ (H : HashFn) (verify : VerifyFn) (b : Block)
        (l1 : List Transactions) (t : Transactions)
        (l2 : List Transactions) (fa : String),
      b.transactions = .arr (l1 ++ t :: l2) →
      (∀ u ∈ l1, u.isValid H verify = .ok true) →
      t.fromAddress = some fa →
      t.signature = none ∨ t.signature = some "" →
      b.hasValidTransactions H verify =
        .error "No signature in this transaction") ∧
    (∀ (H : HashFn) (verify : VerifyFn) (bc : Blockchain) (g : Block)
        (c1 : List Block) (b : Block) (c2 : List Block)
        (l1 : List Transactions) (t : Transactions)
        (l2 : List Transactions) (fa : String),
      bc.chain = g :: (c1 ++ b :: c2) →
      chainSteps H verify g c1 →
      b.transactions = .arr (l1 ++ t :: l2) →
      (∀ u ∈ l1, u.isValid H verify = .ok true) →
      t.fromAddress = some fa →
      t.signature = none ∨ t.signature = some "" →
      bc.isChainValid H verify =
        .error "No signature in this transaction") ∧
    (∀ (H : HashFn) (verify : VerifyFn) (t : Transactions)
        (fa sig : String),
      t.fromAddress = some fa → t.signature = some sig → sig ≠ "" →
      verify fa (t.calculateHash H) sig = false →
      t.isValid H verify = .ok false) ∧
    (∀ (H : HashFn) (verify : VerifyFn) (prev b : Block)
        (rest : List Block),
      b.hasValidTransactions H verify = .ok false →
      chainValidFrom H verify prev (b :: rest) = .ok false) ∧
    (∀ (H : HashFn) (verify : VerifyFn) (prev b : Block)
        (rest : List Block),
      b.hasValidTransactions H verify = .ok true →
      b.hash ≠ b.calculateHash H →
      chainValidFrom H verify prev (b :: rest) = .ok false) ∧
    (∀ (H : HashFn) (verify : VerifyFn) (prev b : Block)
        (rest : List Block),
      b.hasValidTransactions H verify = .ok true →
      b.hash = b.calculateHash H →
      b.previousHash ≠ prev.hash →
      chainValidFrom H verify prev (b :: rest) = .ok false) := by
  refine ⟨?_, ?_, ?_, ?_, ?_, ?_⟩
  · intro H verify b l1 t l2 fa hb hl1 hfa hsig
    exact hasValid_missing_sig hb hl1 hfa hsig
  · intro H verify bc g c1 b c2 l1 t l2 fa hchain hsteps hb hl1 hfa hsig
    have hvc : bc.isChainValid H verify =
        chainValidFrom H verify g (c1 ++ b :: c2) := by
      unfold Blockchain.isChainValid
      rw [hchain]
    obtain ⟨p, hp⟩ := chainValidFrom_reach c1 g hsteps (b :: c2)
    rw [hvc, hp]
    exact chainValidFrom_error_head (hasValid_missing_sig hb hl1 hfa hsig)
  · intro H verify t fa sig hfa hs hemp hver
    simp [Transactions.isValid, hfa, hs, hemp, hver]
  · intro H verify prev b rest h
    simp [chainValidFrom, h, exc_bind_ok]
  · intro H verify prev b rest h1 h2
    simp [chainValidFrom, h1, h2, exc_bind_ok]
  · intro H verify prev b rest h1 h2 h3
    simp [chainValidFrom, h1, h2, h3, exc_bind_ok]

theorem C7_witness :
    Block.hasValidTransactions H0 verifyTrue blockUnsigned =
        .error "No signature in this transaction" ∧
      Blockchain.isChainValid H0 verifyTrue bcUnsigned =
        .error "No signature in this transaction" ∧
      Transactions.isValid H0 verifyFalse
          { fromAddress := some "x", toAddress := some "y", amount := 1,
            signature := some "s" } = .ok false ∧
      chainValidFrom H0 verifyFalse (Blockchain.createGenesisBlock H0)
          [blockTwoTx] = .ok false ∧
      chainValidFrom H0 verifyTrue (Blockchain.createGenesisBlock H0)
          [blockEmptyBadHash] = .ok false ∧
      chainValidFrom H0 verifyTrue (Blockchain.createGenesisBlock H0)
          [blockEmptyGoodHash] = .ok false := by
  refine ⟨?_, ?_, ?_, ?_, ?_, ?_⟩
  · exact C7_error_vs_false_policy.1 H0 verifyTrue blockUnsigned []
      txUnsigned [] "x" rfl (by simp) rfl (Or.inl rfl)
  · exact C7_error_vs_false_policy.2.1 H0 verifyTrue bcUnsigned
      (Blockchain.createGenesisBlock H0) [] blockUnsigned [] []
      txUnsigned [] "x" rfl trivial rfl (by simp) rfl (Or.inl rfl)
  · exact C7_error_vs_false_policy.2.2.1 H0 verifyFalse
      { fromAddress := some "x", toAddress := some "y", amount := 1,
        signature := some "s" } "x" "s" rfl rfl (by decide) rfl
  · exact C7_error_vs_false_policy.2.2.2.1 H0 verifyFalse
      (Blockchain.createGenesisBlock H0) blockTwoTx [] (by decide)
  · exact C7_error_vs_false_policy.2.2.2.2.1 H0 verifyTrue
      (Blockchain.createGenesisBlock H0) blockEmptyBadHash [] (by decide)
      (by decide)
  · exact C7_error_vs_false_policy.2.2.2.2.2 H0 verifyTrue
      (Blockchain.createGenesisBlock H0) blockEmptyGoodHash [] (by decide)
      (by decide) (by decide)

theorem allTxsValid_single_exists {H : HashFn} {verify : VerifyFn}
    {t : Transactions} (hv : ∃ v, t.isValid H verify = .ok v) :
    ∃ w, allTxsValid H verify [t] = .ok w := by
  obtain ⟨v, hv⟩ := hv
  cases v with
  | false => exact ⟨false, by simp [allTxsValid, hv, exc_bind_ok]⟩
  | true => exact ⟨true, by simp [allTxsValid, hv, exc_bind_ok]⟩

/-- A single-block validation step fails outright when the block's
linkage is wrong and its transaction check returns a boolean (whatever the
stored hash is). -/
theorem chainValidFrom_single_fail {H : HashFn} {verify : VerifyFn}
    {prev b : Block} (hlink : b.previousHash ≠ prev.hash)
    (hv : ∃ v, b.hasValidTransactions H verify = .ok v) :
    chainValidFrom H verify prev [b] = .ok false := by
  obtain ⟨v, hv⟩ := hv
  cases v with
  | false => simp [chainValidFrom, hv, exc_bind_ok]
  | true =>
    by_cases hh : b.hash = b.calculateHash H <;>
      simp [chainValidFrom, hv, hh, hlink, exc_bind_ok]

theorem tamperScenario_eq {bc : Blockchain} {g b : Block}
    {rest : List Block} {t : Transactions} {ts : List Transactions}
    (hchain : bc.chain = g :: b :: rest)
    (hb : b.transactions = .arr (t :: ts)) :
    tamperScenario bc =
      { bc with chain :=
          g :: ({ b with transactions := .arr ({ t with amount := 1 } :: ts) }
            : Block) :: rest } := by
  simp only [tamperScenario, hchain, hb]

/-- C3: for every accepted ledger state, changing the amount of any
transaction inside any non-genesis block to a different value makes
`isChainValid` return `ok false` (given an injective digest); and in the
one-transaction driver scenario, setting
`chain[1].transactions[0].amount = 1` also yields `ok false` (for any
digest producing 64-character outputs). -/
theorem C3_tamper_detection :
    (∀ (H : HashFn) (verify : VerifyFn) (bc : Blockchain) (g b : Block)
        (c1 c2 : List Block) (l1 : List Transactions) (t : Transactions)
        (l2 : List Transactions) (a : Nat),
      Function.Injective H →
      bc.chain = g :: (c1 ++ b :: c2) →
      b.transactions = .arr (l1 ++ t :: l2) →
      a ≠ t.amount →
      bc.isChainValid H verify = .ok true →
      Blockchain.isChainValid H verify
        { bc with chain := g :: (c1 ++
            ({ b with
               transactions := .arr (l1 ++ { t with amount := a } :: l2) }
              : Block) :: c2) } = .ok false) ∧
    ∀ (H : HashFn) (verify : VerifyFn) (key : SigningKey) (B : String)
      (fuel now : Nat) (tx1 : Transactions) (bc1 bc2 : Blockchain),
      (∀ s, (H s).length = 64) →
      Transactions.signTransaction H key
          { fromAddress := some key.pub, toAddress := some B, amount := 10,
            signature := none } = .ok tx1 →
      Blockchain.addTransaction H verify (Blockchain.init H) tx1 =
        .ok bc1 →
      Blockchain.minePendingTransaction H fuel now (some key.pub) bc1 =
        some bc2 →
      (tamperScenario bc2).isChainValid H verify = .ok false := by
  constructor
  · intro H verify bc g b c1 c2 l1 t l2 a hinj hchain hb ha hvalid
    have hv' : chainValidFrom H verify g (c1 ++ b :: c2) = .ok true := by
      have h2 := hvalid
      unfold Blockchain.isChainValid at h2
      rw [hchain] at h2
      exact h2
    have hgoal := chainValidFrom_mutate_any H verify hinj c1 g b c2 l1 t l2
      a hb ha hv'
    exact hgoal
  · intro H verify key B fuel now tx1 bc1 bc2 Hlen hsign hadd hmine
    obtain ⟨-, htx⟩ := signTransaction_ok hsign
    obtain ⟨-, -, hiv, hbc1⟩ := addTransaction_ok hadd
    obtain ⟨mined, hm, hbc2⟩ := minePendingTransaction_some hmine
    obtain ⟨htrans, hprev, -, -⟩ := mineBlock_some hm
    have htx2 : tx1 = signedTx H key B := htx
    rw [htx2] at hiv
    have hchain : bc2.chain =
        Blockchain.createGenesisBlock H :: mined :: [] := by
      rw [hbc2, hbc1, htx2]
      rfl
    have htmine : mined.transactions = .arr (signedTx H key B :: []) := by
      rw [htrans, hbc1, htx2]
      rfl
    have hprev2 : mined.previousHash = "" := by
      rw [hprev]
      rfl
    rw [tamperScenario_eq hchain htmine]
    have hlink :
        ({ mined with
           transactions := .arr ({ signedTx H key B with amount := 1 } :: []) }
          : Block).previousHash ≠ (Blockchain.createGenesisBlock H).hash := by
      show mined.previousHash ≠ _
      rw [hprev2]
      intro hcontra
      have hg : (Blockchain.createGenesisBlock H).hash =
          H (blockHashInput "GenesisBlock" 0 (.str "02/10/2018")
            "undefined") := rfl
      rw [hg] at hcontra
      have hlen := Hlen (blockHashInput "GenesisBlock" 0 (.str "02/10/2018")
        "undefined")
      rw [← hcontra] at hlen
      simp at hlen
    have hval : ∃ v, Block.hasValidTransactions H verify
        ({ mined with
           transactions := .arr ({ signedTx H key B with amount := 1 } :: []) }
          : Block) = .ok v := by
      obtain ⟨w, hw⟩ := allTxsValid_single_exists (isValid_set_amount 1 hiv)
      exact ⟨w, hw⟩
    have hfinal : chainValidFrom H verify (Blockchain.createGenesisBlock H)
        [({ mined with
            transactions := .arr ({ signedTx H key B with amount := 1 } :: []) }
          : Block)] = .ok false :=
      chainValidFrom_single_fail hlink hval
    exact hfinal

theorem C3_witness :
    Blockchain.isChainValid id verifyTrue
        { bcW with chain := gW :: ([] ++
            ({ bW with
               transactions := .arr ([] ++ { t0w with amount := 7 } :: []) }
              : Block) :: []) } = .ok false ∧
      (tamperScenario bc2c).isChainValid H0 verifyTrue = .ok false := by
  constructor
  · exact C3_tamper_detection.1 id verifyTrue bcW gW bW [] [] [] t0w [] 7
      (fun _ _ h => h) rfl rfl (by decide) (by decide)
  · exact C3_tamper_detection.2 H0 verifyTrue keyA "addrB" 5 1234 tx1c bc1c
      bc2c (fun _ => rfl) (by decide) (by decide) (by decide)
